import Mathlib

/-!
Verification of the image-resizer's constraint-satisfaction engine
(`handleConvert` in `src/app/page.tsx`, and its earlier dimension-only
variant in `src/unnamed/part_000`) against its design document.

The embedding is shallow: JavaScript numbers are modelled as rationals,
`Math.round` as `jsRound`, the canvas render/encode collaborator
(`canvas.toDataURL` plus the blob size measurement) as an abstract
deterministic function `Enc : CallSpec → Render`, and the iterative
file-size search as a fuelled structural recursion that mirrors the
`while` loop literally (the fuel equals the code's `maxIterations`).
-/

/-- JavaScript `Math.round` on a nonnegative number: floor of `x + 1/2`. -/
def jsRound (x : ℚ) : ℤ := ⌊x + 1 / 2⌋

/-- The max-pass of the dimension resizer (page.tsx lines 124-132,
part_000 lines 84-92): if either dimension exceeds `maxS`, the longer
side is set to `maxS` and the other is scaled by the same factor.
Assignments are sequential in the source, so the scaled side is computed
from the pre-assignment values. -/
def maxPass (w h maxS : ℚ) : ℚ × ℚ :=
  if maxS < w ∨ maxS < h then
    if h < w then (maxS, h / w * maxS) else (w / h * maxS, maxS)
  else (w, h)

/-- The min-pass of the dimension resizer (page.tsx lines 135-143,
part_000 lines 95-103): if either dimension is below `minS`, the branch
on `newWidth < newHeight` sets the other (larger) side to `minS` and
scales the smaller one by the same factor. -/
def minPass (w h minS : ℚ) : ℚ × ℚ :=
  if w < minS ∨ h < minS then
    if w < h then (w / h * minS, minS) else (minS, h / w * minS)
  else (w, h)

/-- Two-pass clamp before rounding: max-pass first, then min-pass on its
output (page.tsx lines 118-143). -/
def dimClamp (w h minS maxS : ℚ) : ℚ × ℚ :=
  minPass (maxPass w h maxS).1 (maxPass w h maxS).2 minS

/-- Full dimension resizer on rational inputs: two-pass clamp followed by
`Math.round` on both components (page.tsx lines 145-146).  No floor at 1
appears in the source for this mode. -/
def dimResizeQ (w h minS maxS : ℚ) : ℤ × ℤ :=
  (jsRound (dimClamp w h minS maxS).1, jsRound (dimClamp w h minS maxS).2)

/-- Dimension resizer on an image with natural intrinsic size and a
natural pixel envelope, as validated at page.tsx lines 58-64. -/
def dimResize (W H minS maxS : ℕ) : ℤ × ℤ :=
  dimResizeQ W H minS maxS

/-- Spec-level terminal status of a resize invocation, as named by the
design document; the embedding maps each status onto the exit branch of
the source that the document describes. -/
inductive Status
  | Satisfied
  | AcceptedBelowMin
  | BestEffort
deriving DecidableEq

/-- Advisory messages set by the file-size path: the keeping-original
notice at page.tsx lines 197-203 and the could-not-perfectly-resize
notice at lines 254-260.  The interpolated text (file name, sizes) is
elided; only which advisory was emitted is modelled. -/
inductive Advisory
  | keepingOriginal
  | couldNotPerfectlyResize
deriving DecidableEq

/-- One invocation of the render/encode collaborator: the canvas target
dimensions, the format string passed to `toDataURL`, and the quality
argument (absent for the dimension path's `toDataURL("image/png")`). -/
structure CallSpec where
  width : ℤ
  height : ℤ
  format : String
  quality : Option ℚ
deriving DecidableEq

/-- Result of one render: the encoded data URL and its measured size in
kilobytes (`dataURLtoBlob(dataUrl).size / 1024`, page.tsx line 175). -/
structure Render where
  dataUrl : String
  sizeKB : ℚ
deriving DecidableEq

/-- The abstract render/encode collaborator; deterministic for fixed
inputs, per the external-interface contract. -/
def Enc : Type := CallSpec → Render

/-- Dimension shrink used in the file-size loop (page.tsx lines 218-225):
multiply by 0.9, `Math.round`, then force the result up to 1 when it
fell below 1. -/
def clampDim (x : ℚ) : ℕ :=
  if jsRound x < 1 then 1 else (jsRound x).toNat

/-- One adjustment of the file-size search (page.tsx lines 212-226):
while quality is above 0.1, reduce it by 0.05 (floored at 0.1) and leave
the dimensions alone; otherwise leave quality alone and shrink both
dimensions by the factor 0.9, rounded and floored at 1. -/
def adjust (q : ℚ) (w h : ℕ) : ℚ × ℕ × ℕ :=
  if 1 / 10 < q then (max (1 / 10) (q - 1 / 20), w, h)
  else (q, clampDim ((w : ℚ) * (9 / 10)), clampDim ((h : ℚ) * (9 / 10)))

/-- Mutable state of the file-size search loop.  `lastValidDataUrl` and
`lastValidSizeKB` mirror the two variables initialised at page.tsx lines
161-162 (the empty string doubling as the "no candidate yet" marker, as
in the truthiness test at line 249); `calls` records every collaborator
invocation in order. -/
structure FsState where
  quality : ℚ
  width : ℕ
  height : ℕ
  current : Render
  lastValidDataUrl : String
  lastValidSizeKB : ℚ
  iters : ℕ
  calls : List CallSpec
deriving DecidableEq

/-- One iteration of the search loop body (page.tsx lines 210-240):
increment the counter, adjust quality or dimensions, re-render as JPEG,
and record the render as the running candidate when its size is at most
`maxKB`. -/
def iterStep (enc : Enc) (maxKB : ℚ) (s : FsState) : FsState :=
  { quality := (adjust s.quality s.width s.height).1,
    width := (adjust s.quality s.width s.height).2.1,
    height := (adjust s.quality s.width s.height).2.2,
    current := enc ⟨(adjust s.quality s.width s.height).2.1,
      (adjust s.quality s.width s.height).2.2, "image/jpeg",
      some (adjust s.quality s.width s.height).1⟩,
    lastValidDataUrl :=
      if (enc ⟨(adjust s.quality s.width s.height).2.1,
          (adjust s.quality s.width s.height).2.2, "image/jpeg",
          some (adjust s.quality s.width s.height).1⟩).sizeKB ≤ maxKB
        then (enc ⟨(adjust s.quality s.width s.height).2.1,
          (adjust s.quality s.width s.height).2.2, "image/jpeg",
          some (adjust s.quality s.width s.height).1⟩).dataUrl
        else s.lastValidDataUrl,
    lastValidSizeKB :=
      if (enc ⟨(adjust s.quality s.width s.height).2.1,
          (adjust s.quality s.width s.height).2.2, "image/jpeg",
          some (adjust s.quality s.width s.height).1⟩).sizeKB ≤ maxKB
        then (enc ⟨(adjust s.quality s.width s.height).2.1,
          (adjust s.quality s.width s.height).2.2, "image/jpeg",
          some (adjust s.quality s.width s.height).1⟩).sizeKB
        else s.lastValidSizeKB,
    iters := s.iters + 1,
    calls := s.calls ++ [⟨(adjust s.quality s.width s.height).2.1,
      (adjust s.quality s.width s.height).2.2, "image/jpeg",
      some (adjust s.quality s.width s.height).1⟩] }

/-- The `while` loop at page.tsx lines 206-246, by structural recursion
on fuel.  The guard `size > max and iterations < 100` is the loop
condition; after an iteration the loop breaks early exactly when the new
render lands inside the full envelope (lines 238-244).  Run with fuel
100 this is the source loop verbatim, since each iteration consumes one
unit of fuel and increments `iters`. -/
def searchLoop (enc : Enc) (minKB maxKB : ℚ) : ℕ → FsState → FsState
  | 0, s => s
  | fuel + 1, s =>
    if maxKB < s.current.sizeKB ∧ s.iters < 100 then
      if minKB ≤ (iterStep enc maxKB s).current.sizeKB ∧
          (iterStep enc maxKB s).current.sizeKB ≤ maxKB then
        iterStep enc maxKB s
      else searchLoop enc minKB maxKB fuel (iterStep enc maxKB s)
    else s

/-- The initial render call of the file-size path: intrinsic dimensions
at quality 0.9, always as JPEG (page.tsx lines 155-157 and 179-181). -/
def initSpec (W H : ℕ) : CallSpec := ⟨W, H, "image/jpeg", some (9 / 10)⟩

/-- The initial render. -/
def fsInit (enc : Enc) (W H : ℕ) : Render := enc (initSpec W H)

/-- Loop state just before the first iteration (page.tsx lines 155-183). -/
def fsInitState (enc : Enc) (W H : ℕ) : FsState :=
  ⟨9 / 10, W, H, fsInit enc W H, "", 0, 0, [initSpec W H]⟩

/-- Final loop state of the over-maximum branch. -/
def fsLoopFinal (enc : Enc) (minKB maxKB : ℚ) (W H : ℕ) : FsState :=
  searchLoop enc minKB maxKB 100 (fsInitState enc W H)

/-- Terminal artifact of one file-size resize invocation. -/
structure Outcome where
  result : Render
  status : Status
  advisory : Option Advisory
  calls : List CallSpec
deriving DecidableEq

/-- The complete file-size resizer (page.tsx lines 153-262): render once
at quality 0.9; return immediately when the size is inside the envelope
(`Satisfied`) or below the minimum (`AcceptedBelowMin`, with the
keeping-original advisory); otherwise run the bounded search and return
the recorded candidate when one exists (empty-string truthiness test,
line 249) and the last render with the could-not-perfectly-resize
advisory otherwise.  A recorded candidate whose size reached `minKB`
can only come from the early break, which the design document calls
`Satisfied`; a recorded candidate below `minKB` is the document's
`BestEffort`. -/
def fileSizeResize (enc : Enc) (minKB maxKB : ℚ) (W H : ℕ) : Outcome :=
  if minKB ≤ (fsInit enc W H).sizeKB ∧ (fsInit enc W H).sizeKB ≤ maxKB then
    ⟨fsInit enc W H, Status.Satisfied, none, [initSpec W H]⟩
  else if (fsInit enc W H).sizeKB < minKB then
    ⟨fsInit enc W H, Status.AcceptedBelowMin, some Advisory.keepingOriginal,
      [initSpec W H]⟩
  else if (fsLoopFinal enc minKB maxKB W H).lastValidDataUrl ≠ "" then
    ⟨⟨(fsLoopFinal enc minKB maxKB W H).lastValidDataUrl,
        (fsLoopFinal enc minKB maxKB W H).lastValidSizeKB⟩,
      if minKB ≤ (fsLoopFinal enc minKB maxKB W H).lastValidSizeKB
        then Status.Satisfied else Status.BestEffort,
      none, (fsLoopFinal enc minKB maxKB W H).calls⟩
  else
    ⟨(fsLoopFinal enc minKB maxKB W H).current, Status.BestEffort,
      some Advisory.couldNotPerfectlyResize,
      (fsLoopFinal enc minKB maxKB W H).calls⟩

/-- The single render call of the dimension path: the clamped dimensions
with `toDataURL("image/png")` and no quality argument (page.tsx lines
148-151). -/
def dimModeCall (W H minS maxS : ℕ) : CallSpec :=
  ⟨(dimResize W H minS maxS).1, (dimResize W H minS maxS).2, "image/png", none⟩

/-- JavaScript `name.split(".")` at the character level: splitting on a
single-character separator, where the empty string yields `[""]` and a
trailing separator yields a trailing empty field. -/
def jsSplitDot : List Char → List (List Char)
  | [] => [[]]
  | c :: rest =>
    match jsSplitDot rest with
    | [] => [[]]
    | p :: ps => if c = '.' then [] :: p :: ps else (c :: p) :: ps

/-- JavaScript `parts.join(".")` at the character level. -/
def joinDot : List (List Char) → List Char
  | [] => []
  | [p] => p
  | p :: q :: ps => p ++ '.' :: joinDot (q :: ps)

/-- The base-name computation of the file-size output filename:
`file.name.split(".").slice(0, -1).join(".")` (page.tsx lines 264-267). -/
def fsBaseName (l : List Char) : List Char := joinDot (jsSplitDot l).dropLast

/-- The file-size output filename
`resized_filesize_<base>.jpeg` (page.tsx lines 263-267). -/
def fsOutputName (name : String) : String :=
  String.mk ("resized_filesize_".toList ++ fsBaseName name.toList ++ ".jpeg".toList)

/-- Modelled from the claim's wording for C10: the input filename with
everything from its last dot onward removed, which is the empty string
when the name contains no dot. -/
def stripFromLastDot (l : List Char) : List Char :=
  ((l.reverse.dropWhile (fun c => c ≠ '.')).drop 1).reverse

/-- Loop invariant of the file-size search: quality at least 0.1, both
dimensions at least 1, and the iteration counter at most 100. -/
def FsInv (s : FsState) : Prop :=
  1 / 10 ≤ s.quality ∧ 1 ≤ s.width ∧ 1 ≤ s.height ∧ s.iters ≤ 100

instance (s : FsState) : Decidable (FsInv s) := by
  unfold FsInv
  infer_instance

/-- Concrete collaborator used to exercise the exhausted-budget path:
every render is far over a maximum of 3 KB until the canvas width drops
to 15 pixels or below, which first happens on the 100th iteration when
starting from a 100000-pixel-wide image. -/
def encC2 : Enc := fun c => ⟨"u", if c.width ≤ 15 then 1 else 100⟩

/-- Concrete collaborator whose renders always measure 40 KB. -/
def encConst40 : Enc := fun _ => ⟨"d", 40⟩

/-- Concrete collaborator whose renders always measure 10 KB. -/
def encConst10 : Enc := fun _ => ⟨"d", 10⟩

/-- Concrete collaborator whose renders always measure 500 KB. -/
def encConst500 : Enc := fun _ => ⟨"d", 500⟩


section RoundLemmas

theorem jsRound_intCast (n : ℤ) : jsRound (n : ℚ) = n := by
  unfold jsRound
  rw [Int.floor_int_add]
  norm_num

theorem jsRound_le {x : ℚ} {n : ℤ} (h : x ≤ (n : ℚ)) : jsRound x ≤ n := by
  unfold jsRound
  have : ⌊x + 1 / 2⌋ ≤ ⌊(n : ℚ) + 1 / 2⌋ := Int.floor_le_floor (by linarith)
  calc ⌊x + 1 / 2⌋ ≤ ⌊(n : ℚ) + 1 / 2⌋ := this
    _ = n := by rw [Int.floor_int_add]; norm_num

theorem le_jsRound {x : ℚ} {n : ℤ} (h : (n : ℚ) ≤ x) : n ≤ jsRound x := by
  unfold jsRound
  have : ⌊(n : ℚ) + 1 / 2⌋ ≤ ⌊x + 1 / 2⌋ := Int.floor_le_floor (by linarith)
  calc n = ⌊(n : ℚ) + 1 / 2⌋ := by rw [Int.floor_int_add]; norm_num
    _ ≤ ⌊x + 1 / 2⌋ := this

theorem jsRound_nonneg {x : ℚ} (h : 0 ≤ x) : 0 ≤ jsRound x :=
  le_jsRound (by exact_mod_cast h)

theorem abs_jsRound_sub_le (x : ℚ) : |((jsRound x : ℤ) : ℚ) - x| ≤ 1 / 2 := by
  unfold jsRound
  have h1 : ((⌊x + 1 / 2⌋ : ℤ) : ℚ) ≤ x + 1 / 2 := Int.floor_le _
  have h2 : x + 1 / 2 - 1 < ((⌊x + 1 / 2⌋ : ℤ) : ℚ) := Int.sub_one_lt_floor _
  rw [abs_le]
  constructor <;> linarith

end RoundLemmas

section DimLemmas

/-- The max-pass multiplies both dimensions by a common positive scalar. -/
theorem maxPass_eq_smul (w h maxS : ℚ) (hw : 0 < w) (hh : 0 < h)
    (hmax : 0 < maxS) :
    ∃ t : ℚ, 0 < t ∧ maxPass w h maxS = (t * w, t * h) := by
  unfold maxPass
  by_cases hc : maxS < w ∨ maxS < h
  · rw [if_pos hc]
    by_cases hwh : h < w
    · refine ⟨maxS / w, by positivity, ?_⟩
      rw [if_pos hwh]
      have hw0 : w ≠ 0 := ne_of_gt hw
      simp only [Prod.mk.injEq]
      constructor <;> (field_simp; try ring)
    · refine ⟨maxS / h, by positivity, ?_⟩
      rw [if_neg hwh]
      have hh0 : h ≠ 0 := ne_of_gt hh
      simp only [Prod.mk.injEq]
      constructor <;> (field_simp; try ring)
  · rw [if_neg hc]
    exact ⟨1, one_pos, by simp⟩

/-- The min-pass multiplies both dimensions by a common positive scalar. -/
theorem minPass_eq_smul (w h minS : ℚ) (hw : 0 < w) (hh : 0 < h)
    (hmin : 0 < minS) :
    ∃ t : ℚ, 0 < t ∧ minPass w h minS = (t * w, t * h) := by
  unfold minPass
  by_cases hc : w < minS ∨ h < minS
  · rw [if_pos hc]
    by_cases hwh : w < h
    · refine ⟨minS / h, by positivity, ?_⟩
      rw [if_pos hwh]
      have hh0 : h ≠ 0 := ne_of_gt hh
      simp only [Prod.mk.injEq]
      constructor <;> (field_simp; try ring)
    · refine ⟨minS / w, by positivity, ?_⟩
      rw [if_neg hwh]
      have hw0 : w ≠ 0 := ne_of_gt hw
      simp only [Prod.mk.injEq]
      constructor <;> (field_simp; try ring)
  · rw [if_neg hc]
    exact ⟨1, one_pos, by simp⟩

/-- The two-pass clamp multiplies both dimensions by a common positive
scalar, hence preserves the aspect ratio exactly before rounding. -/
theorem dimClamp_eq_smul (w h minS maxS : ℚ) (hw : 0 < w) (hh : 0 < h)
    (hmin : 0 < minS) (hmax : 0 < maxS) :
    ∃ t : ℚ, 0 < t ∧ dimClamp w h minS maxS = (t * w, t * h) := by
  obtain ⟨t1, ht1, h1⟩ := maxPass_eq_smul w h maxS hw hh hmax
  have hp1 : 0 < (maxPass w h maxS).1 := by rw [h1]; positivity
  have hp2 : 0 < (maxPass w h maxS).2 := by rw [h1]; positivity
  obtain ⟨t2, ht2, h2⟩ :=
    minPass_eq_smul (maxPass w h maxS).1 (maxPass w h maxS).2 minS hp1 hp2 hmin
  refine ⟨t2 * t1, by positivity, ?_⟩
  unfold dimClamp
  rw [h2, h1]
  simp only [Prod.mk.injEq]
  constructor <;> ring

theorem dimClamp_aspect (w h minS maxS : ℚ) (hw : 0 < w) (hh : 0 < h)
    (hmin : 0 < minS) (hmax : 0 < maxS) :
    (dimClamp w h minS maxS).1 * h = (dimClamp w h minS maxS).2 * w := by
  obtain ⟨t, _, ht⟩ := dimClamp_eq_smul w h minS maxS hw hh hmin hmax
  rw [ht]
  ring

/-- Upper bound: both components of the max-pass output are at most
`maxS`, and they stay positive. -/
theorem maxPass_bounds (w h maxS : ℚ) (hw : 0 < w) (hh : 0 < h)
    (hmax : 0 < maxS) :
    (maxPass w h maxS).1 ≤ maxS ∧ (maxPass w h maxS).2 ≤ maxS ∧
      0 < (maxPass w h maxS).1 ∧ 0 < (maxPass w h maxS).2 := by
  unfold maxPass
  by_cases hc : maxS < w ∨ maxS < h
  · rw [if_pos hc]
    by_cases hwh : h < w
    · rw [if_pos hwh]
      have h1 : h / w ≤ 1 := by
        rw [div_le_one hw]; linarith
      have h2 : 0 < h / w := by positivity
      refine ⟨le_refl _, ?_, hmax, by positivity⟩
      calc h / w * maxS ≤ 1 * maxS := by nlinarith
        _ = maxS := one_mul _
    · rw [if_neg hwh]
      push_neg at hwh
      have h1 : w / h ≤ 1 := by
        rw [div_le_one hh]; linarith
      refine ⟨?_, le_refl _, by positivity, hmax⟩
      calc w / h * maxS ≤ 1 * maxS := by nlinarith
        _ = maxS := one_mul _
  · rw [if_neg hc]
    push_neg at hc
    exact ⟨hc.1, hc.2, hw, hh⟩

/-- Shape of the min-pass output: either both components already reach
`minS`, or the pass fired and set the larger component to exactly `minS`
while the other remains at most `minS`. -/
theorem minPass_shape (w h minS : ℚ) (hw : 0 < w) (hh : 0 < h)
    (hmin : 0 < minS) :
    (minS ≤ (minPass w h minS).1 ∧ minS ≤ (minPass w h minS).2) ∨
    ((minPass w h minS).1 ≤ minS ∧ (minPass w h minS).2 = minS) ∨
    ((minPass w h minS).1 = minS ∧ (minPass w h minS).2 ≤ minS) := by
  unfold minPass
  by_cases hc : w < minS ∨ h < minS
  · rw [if_pos hc]
    by_cases hwh : w < h
    · rw [if_pos hwh]
      refine Or.inr (Or.inl ⟨?_, rfl⟩)
      have h1 : w / h ≤ 1 := by
        rw [div_le_one hh]; linarith
      calc w / h * minS ≤ 1 * minS := by nlinarith
        _ = minS := one_mul _
    · rw [if_neg hwh]
      push_neg at hwh
      refine Or.inr (Or.inr ⟨rfl, ?_⟩)
      have h1 : h / w ≤ 1 := by
        rw [div_le_one hw]; linarith
      calc h / w * minS ≤ 1 * minS := by nlinarith
        _ = minS := one_mul _
  · rw [if_neg hc]
    push_neg at hc
    exact Or.inl ⟨hc.1, hc.2⟩

/-- The min-pass does not push either component above `maxS` when
`minS ≤ maxS` (it fixes the larger component to `minS`). -/
theorem minPass_ub (w h minS maxS : ℚ) (hw : 0 < w) (hh : 0 < h)
    (hmin : 0 < minS) (hle : minS ≤ maxS) (hwu : w ≤ maxS) (hhu : h ≤ maxS) :
    (minPass w h minS).1 ≤ maxS ∧ (minPass w h minS).2 ≤ maxS := by
  unfold minPass
  by_cases hc : w < minS ∨ h < minS
  · rw [if_pos hc]
    by_cases hwh : w < h
    · rw [if_pos hwh]
      have h1 : w / h ≤ 1 := by rw [div_le_one hh]; linarith
      constructor
      · calc w / h * minS ≤ 1 * minS := by nlinarith
          _ = minS := one_mul _
          _ ≤ maxS := hle
      · exact hle
    · rw [if_neg hwh]
      push_neg at hwh
      have h1 : h / w ≤ 1 := by rw [div_le_one hw]; linarith
      constructor
      · exact hle
      · calc h / w * minS ≤ 1 * minS := by nlinarith
          _ = minS := one_mul _
          _ ≤ maxS := hle
  · rw [if_neg hc]
    exact ⟨hwu, hhu⟩

/-- The min-pass keeps both components positive. -/
theorem minPass_pos (w h minS : ℚ) (hw : 0 < w) (hh : 0 < h)
    (hmin : 0 < minS) :
    0 < (minPass w h minS).1 ∧ 0 < (minPass w h minS).2 := by
  unfold minPass
  by_cases hc : w < minS ∨ h < minS
  · rw [if_pos hc]
    by_cases hwh : w < h
    · rw [if_pos hwh]
      exact ⟨by positivity, hmin⟩
    · rw [if_neg hwh]
      exact ⟨hmin, by positivity⟩
  · rw [if_neg hc]
    exact ⟨hw, hh⟩

end DimLemmas

/-- Combined facts about the two-pass clamp before rounding: positivity,
upper bound `maxS` on both components, and the three-way shape with
respect to `minS`. -/
theorem dimClamp_facts (w h minS maxS : ℚ) (hw : 0 < w) (hh : 0 < h)
    (hmin : 0 < minS) (hmax : 0 < maxS) (hle : minS ≤ maxS) :
    0 < (dimClamp w h minS maxS).1 ∧ 0 < (dimClamp w h minS maxS).2 ∧
    (dimClamp w h minS maxS).1 ≤ maxS ∧ (dimClamp w h minS maxS).2 ≤ maxS ∧
    ((minS ≤ (dimClamp w h minS maxS).1 ∧ minS ≤ (dimClamp w h minS maxS).2) ∨
     ((dimClamp w h minS maxS).1 ≤ minS ∧ (dimClamp w h minS maxS).2 = minS) ∨
     ((dimClamp w h minS maxS).1 = minS ∧ (dimClamp w h minS maxS).2 ≤ minS)) := by
  obtain ⟨hu1, hu2, hp1, hp2⟩ := maxPass_bounds w h maxS hw hh hmax
  have h1 := minPass_pos (maxPass w h maxS).1 (maxPass w h maxS).2 minS hp1 hp2 hmin
  have h2 := minPass_ub (maxPass w h maxS).1 (maxPass w h maxS).2 minS maxS
    hp1 hp2 hmin hle hu1 hu2
  have h3 := minPass_shape (maxPass w h maxS).1 (maxPass w h maxS).2 minS hp1 hp2 hmin
  exact ⟨h1.1, h1.2, h2.1, h2.2, h3⟩

/-- Facts about the rounded output of the dimension resizer on a valid
image and envelope: both components are nonnegative, bounded by `maxS`,
and follow the three-way shape with respect to `minS`. -/
theorem dimResize_facts (W H minS maxS : ℕ) (hW : 0 < W) (hH : 0 < H)
    (hmin : 0 < minS) (hle : minS ≤ maxS) :
    0 ≤ (dimResize W H minS maxS).1 ∧ 0 ≤ (dimResize W H minS maxS).2 ∧
    (dimResize W H minS maxS).1 ≤ (maxS : ℤ) ∧
    (dimResize W H minS maxS).2 ≤ (maxS : ℤ) ∧
    (((minS : ℤ) ≤ (dimResize W H minS maxS).1 ∧
        (minS : ℤ) ≤ (dimResize W H minS maxS).2) ∨
     ((dimResize W H minS maxS).1 ≤ (minS : ℤ) ∧
        (dimResize W H minS maxS).2 = (minS : ℤ)) ∨
     ((dimResize W H minS maxS).1 = (minS : ℤ) ∧
        (dimResize W H minS maxS).2 ≤ (minS : ℤ))) := by
  have hWq : (0 : ℚ) < (W : ℚ) := by exact_mod_cast hW
  have hHq : (0 : ℚ) < (H : ℚ) := by exact_mod_cast hH
  have hminq : (0 : ℚ) < (minS : ℚ) := by exact_mod_cast hmin
  have hmaxq : (0 : ℚ) < (maxS : ℚ) := lt_of_lt_of_le hminq (by exact_mod_cast hle)
  have hleq : (minS : ℚ) ≤ (maxS : ℚ) := by exact_mod_cast hle
  obtain ⟨hc1, hc2, hu1, hu2, hshape⟩ :=
    dimClamp_facts (W : ℚ) (H : ℚ) (minS : ℚ) (maxS : ℚ) hWq hHq hminq hmaxq hleq
  have e1 : (dimResize W H minS maxS).1 = jsRound (dimClamp (W : ℚ) (H : ℚ) (minS : ℚ) (maxS : ℚ)).1 := rfl
  have e2 : (dimResize W H minS maxS).2 = jsRound (dimClamp (W : ℚ) (H : ℚ) (minS : ℚ) (maxS : ℚ)).2 := rfl
  rw [e1, e2]
  have cast_max : ((maxS : ℕ) : ℚ) = (((maxS : ℕ) : ℤ) : ℚ) := by push_cast; ring
  have cast_min : ((minS : ℕ) : ℚ) = (((minS : ℕ) : ℤ) : ℚ) := by push_cast; ring
  refine ⟨jsRound_nonneg hc1.le, jsRound_nonneg hc2.le,
    jsRound_le (by rw [← cast_max]; exact hu1),
    jsRound_le (by rw [← cast_max]; exact hu2), ?_⟩
  rcases hshape with ⟨s1, s2⟩ | ⟨s1, s2⟩ | ⟨s1, s2⟩
  · exact Or.inl ⟨le_jsRound (by rw [← cast_min]; exact s1),
      le_jsRound (by rw [← cast_min]; exact s2)⟩
  · refine Or.inr (Or.inl ⟨jsRound_le (by rw [← cast_min]; exact s1), ?_⟩)
    rw [s2, cast_min, jsRound_intCast]
  · refine Or.inr (Or.inr ⟨?_, jsRound_le (by rw [← cast_min]; exact s2)⟩)
    rw [s1, cast_min, jsRound_intCast]

/-- Integer pairs of the three-way shape are fixed points of the full
dimension resizer: the max-pass cannot fire (both bounded by `maxS`), and
when the min-pass fires its larger input is already exactly `minS`, so it
rescales the smaller one by `minS / minS = 1`. -/
theorem dimResizeQ_fixed (a b : ℤ) (minS maxS : ℕ) (hmin : 0 < minS)
    (hle : minS ≤ maxS) (ha0 : 0 ≤ a) (hb0 : 0 ≤ b)
    (hau : a ≤ (maxS : ℤ)) (hbu : b ≤ (maxS : ℤ))
    (hshape : (((minS : ℤ) ≤ a ∧ (minS : ℤ) ≤ b) ∨
      (a ≤ (minS : ℤ) ∧ b = (minS : ℤ)) ∨
      (a = (minS : ℤ) ∧ b ≤ (minS : ℤ)))) :
    dimResizeQ (a : ℚ) (b : ℚ) (minS : ℚ) (maxS : ℚ) = (a, b) := by
  have hminq : (0 : ℚ) < (minS : ℚ) := by exact_mod_cast hmin
  have hmins0 : ((minS : ℕ) : ℚ) ≠ 0 := ne_of_gt hminq
  have hmp : maxPass (a : ℚ) (b : ℚ) (maxS : ℚ) = ((a : ℚ), (b : ℚ)) := by
    unfold maxPass
    rw [if_neg]
    push_neg
    constructor
    · exact_mod_cast hau
    · exact_mod_cast hbu
  have hdc : dimClamp (a : ℚ) (b : ℚ) (minS : ℚ) (maxS : ℚ) =
      minPass (a : ℚ) (b : ℚ) (minS : ℚ) := by
    unfold dimClamp
    rw [hmp]
  have key : minPass (a : ℚ) (b : ℚ) (minS : ℚ) = ((a : ℚ), (b : ℚ)) := by
    rcases hshape with ⟨s1, s2⟩ | ⟨s1, s2⟩ | ⟨s1, s2⟩
    · unfold minPass
      rw [if_neg]
      push_neg
      constructor
      · exact_mod_cast s1
      · exact_mod_cast s2
    · rcases lt_or_eq_of_le s1 with hlt | heq
      · unfold minPass
        have hcond : (a : ℚ) < (minS : ℚ) ∨ (b : ℚ) < (minS : ℚ) :=
          Or.inl (by exact_mod_cast hlt)
        rw [if_pos hcond, if_pos (by rw [s2]; exact_mod_cast hlt)]
        have hb' : (b : ℚ) = (minS : ℚ) := by exact_mod_cast s2
        rw [hb']
        field_simp
      · unfold minPass
        rw [if_neg]
        push_neg
        constructor
        · exact_mod_cast le_of_eq heq.symm
        · exact_mod_cast le_of_eq s2.symm
    · rcases lt_or_eq_of_le s2 with hlt | heq
      · unfold minPass
        have hcond : (a : ℚ) < (minS : ℚ) ∨ (b : ℚ) < (minS : ℚ) :=
          Or.inr (by exact_mod_cast hlt)
        rw [if_pos hcond, if_neg (by push_neg; rw [s1]; exact_mod_cast hlt.le)]
        have ha' : (a : ℚ) = (minS : ℚ) := by exact_mod_cast s1
        rw [ha']
        field_simp
      · unfold minPass
        rw [if_neg]
        push_neg
        constructor
        · exact_mod_cast le_of_eq s1.symm
        · exact_mod_cast le_of_eq heq.symm
  unfold dimResizeQ
  rw [hdc, key]
  simp only [Prod.mk.injEq]
  exact ⟨jsRound_intCast a, jsRound_intCast b⟩


/-- C1 counterexample: for the image 50×200 with envelope
`{min := 100, max := 800}` the resizer returns `(25, 100)`, whose width
25 falls below the minimum 100 — the min-pass raises the longer side to
`min` and drags the shorter side down proportionally, so the claim that
neither dimension falls below `min` is false at this input. -/
theorem dim_resize_min_bound_fails :
    dimResize 50 200 100 800 = (25, 100) ∧
      (dimResize 50 200 100 800).1 < 100 := by
  with_unfolding_all decide

/-- C1 (amended): for every image with `W, H > 0` and every envelope with
`0 < min ≤ max`, the two-pass clamp keeps both output dimensions at most
`max` and keeps the larger output dimension at least `min` (the shorter
dimension may fall below `min` when the min-pass fires, because the
min-pass scales the longer side to exactly `min`); the aspect ratio is
preserved exactly before rounding, and each rounded output is within 1/2
of its pre-rounding value. -/
theorem dim_resize_envelope_amended (W H minS maxS : ℕ) (hW : 0 < W)
    (hH : 0 < H) (hmin : 0 < minS) (hle : minS ≤ maxS) :
    (dimResize W H minS maxS).1 ≤ (maxS : ℤ) ∧
    (dimResize W H minS maxS).2 ≤ (maxS : ℤ) ∧
    (minS : ℤ) ≤ max (dimResize W H minS maxS).1 (dimResize W H minS maxS).2 ∧
    (dimClamp W H minS maxS).1 * (H : ℚ) = (dimClamp W H minS maxS).2 * (W : ℚ) ∧
    |((dimResize W H minS maxS).1 : ℚ) - (dimClamp W H minS maxS).1| ≤ 1 / 2 ∧
    |((dimResize W H minS maxS).2 : ℚ) - (dimClamp W H minS maxS).2| ≤ 1 / 2 := by
  obtain ⟨h01, h02, hu1, hu2, hshape⟩ := dimResize_facts W H minS maxS hW hH hmin hle
  have hWq : (0 : ℚ) < (W : ℚ) := by exact_mod_cast hW
  have hHq : (0 : ℚ) < (H : ℚ) := by exact_mod_cast hH
  have hminq : (0 : ℚ) < (minS : ℚ) := by exact_mod_cast hmin
  have hmaxq : (0 : ℚ) < (maxS : ℚ) :=
    lt_of_lt_of_le hminq (by exact_mod_cast hle)
  refine ⟨hu1, hu2, ?_, dimClamp_aspect (W : ℚ) (H : ℚ) (minS : ℚ) (maxS : ℚ)
    hWq hHq hminq hmaxq, abs_jsRound_sub_le _, abs_jsRound_sub_le _⟩
  rcases hshape with ⟨s1, _⟩ | ⟨_, s2⟩ | ⟨s1, _⟩
  · exact le_trans s1 (le_max_left _ _)
  · exact le_trans (le_of_eq s2.symm) (le_max_right _ _)
  · exact le_trans (le_of_eq s1.symm) (le_max_left _ _)

/-- C1 witness: the spec scenario image 4000×2000 with envelope
`{min := 100, max := 800}` satisfies all hypotheses and the amended
property. -/
theorem dim_resize_envelope_amended_witness :
    (0 < 4000 ∧ 0 < 2000 ∧ 0 < 100 ∧ 100 ≤ 800) ∧
    ((dimResize 4000 2000 100 800).1 ≤ (800 : ℤ) ∧
     (dimResize 4000 2000 100 800).2 ≤ (800 : ℤ) ∧
     (100 : ℤ) ≤ max (dimResize 4000 2000 100 800).1 (dimResize 4000 2000 100 800).2 ∧
     (dimClamp 4000 2000 100 800).1 * ((2000 : ℕ) : ℚ) =
       (dimClamp 4000 2000 100 800).2 * ((4000 : ℕ) : ℚ) ∧
     |((dimResize 4000 2000 100 800).1 : ℚ) - (dimClamp 4000 2000 100 800).1| ≤ 1 / 2 ∧
     |((dimResize 4000 2000 100 800).2 : ℚ) - (dimClamp 4000 2000 100 800).2| ≤ 1 / 2) :=
  ⟨by decide, dim_resize_envelope_amended 4000 2000 100 800
    (by decide) (by decide) (by decide) (by decide)⟩

/-- C7 counterexample: the first output for the image 50×200 with
envelope `{min := 100, max := 800}` is `(25, 100)`, which does not
satisfy the envelope; on a second run the min-pass guard
`newWidth < minSize or newHeight < minSize` holds again (25 < 100), so
the claim that the first output already satisfies the envelope and that
neither clamp pass fires on the rerun is false at this input. -/
theorem dim_resize_rerun_pass_fires :
    dimResize 50 200 100 800 = (25, 100) ∧
    (((dimResize 50 200 100 800).1 : ℚ) < 100 ∨
      ((dimResize 50 200 100 800).2 : ℚ) < 100) := by
  with_unfolding_all decide

/-- C7 (amended): for every image with `W, H > 0` and every envelope with
`0 < min ≤ max`, running the dimension resizer a second time on its own
output with the same envelope returns that output unchanged.  The first
output need not satisfy the min bound, and the min-pass may fire again on
the rerun, but when it does the larger side is already exactly `min`, so
the pass rescales by `min / min = 1` and the output is a fixed point. -/
theorem dim_resize_idempotent (W H minS maxS : ℕ) (hW : 0 < W) (hH : 0 < H)
    (hmin : 0 < minS) (hle : minS ≤ maxS) :
    dimResizeQ ((dimResize W H minS maxS).1 : ℚ) ((dimResize W H minS maxS).2 : ℚ)
      (minS : ℚ) (maxS : ℚ) = dimResize W H minS maxS := by
  obtain ⟨h01, h02, hu1, hu2, hshape⟩ := dimResize_facts W H minS maxS hW hH hmin hle
  rw [dimResizeQ_fixed (dimResize W H minS maxS).1 (dimResize W H minS maxS).2
    minS maxS hmin hle h01 h02 hu1 hu2 hshape]

/-- C7 witness: the spec scenario image 50×50 with envelope
`{min := 100, max := 800}` (output `(100, 100)`) satisfies the
hypotheses, and rerunning the resizer on the output is the identity. -/
theorem dim_resize_idempotent_witness :
    (0 < 50 ∧ 0 < 50 ∧ 0 < 100 ∧ 100 ≤ 800) ∧
    dimResizeQ ((dimResize 50 50 100 800).1 : ℚ) ((dimResize 50 50 100 800).2 : ℚ)
      ((100 : ℕ) : ℚ) ((800 : ℕ) : ℚ) = dimResize 50 50 100 800 :=
  ⟨by decide, dim_resize_idempotent 50 50 100 800
    (by decide) (by decide) (by decide) (by decide)⟩

/-- C8 counterexample: for the image 1×3 with envelope
`{min := 1, max := 1}` the resizer returns `(0, 1)` — the clamp passes
leave the width at 1/3, and `Math.round (1/3) = 0` with no floor at 1 in
the dimension path, so the claim that both returned dimensions are at
least 1 is false at this input. -/
theorem dim_resize_width_zero :
    dimResize 1 3 1 1 = (0, 1) ∧ (dimResize 1 3 1 1).1 < 1 := by
  with_unfolding_all decide

/-- C8 (amended): after the two clamp passes both output dimensions are
rounded to the nearest integer, but no floor at 1 is applied in the
dimension path — the returned width and height are each at least 0, and
an output of 0 is possible. -/
theorem dim_resize_round_no_floor (W H minS maxS : ℕ) (hW : 0 < W)
    (hH : 0 < H) (hmin : 0 < minS) (hle : minS ≤ maxS) :
    dimResize W H minS maxS =
      (jsRound (dimClamp W H minS maxS).1, jsRound (dimClamp W H minS maxS).2) ∧
    0 ≤ (dimResize W H minS maxS).1 ∧ 0 ≤ (dimResize W H minS maxS).2 := by
  obtain ⟨h01, h02, _, _, _⟩ := dimResize_facts W H minS maxS hW hH hmin hle
  exact ⟨rfl, h01, h02⟩

/-- C8 witness: the image 30×20 with envelope `{min := 10, max := 25}`
satisfies the hypotheses and the rounding property. -/
theorem dim_resize_round_no_floor_witness :
    (0 < 30 ∧ 0 < 20 ∧ 0 < 10 ∧ 10 ≤ 25) ∧
    (dimResize 30 20 10 25 =
      (jsRound (dimClamp 30 20 10 25).1, jsRound (dimClamp 30 20 10 25).2) ∧
     0 ≤ (dimResize 30 20 10 25).1 ∧ 0 ≤ (dimResize 30 20 10 25).2) :=
  ⟨by decide, dim_resize_round_no_floor 30 20 10 25
    (by decide) (by decide) (by decide) (by decide)⟩

section FsLemmas

theorem adjust_quality_ge (q : ℚ) (w h : ℕ) (hq : 1 / 10 ≤ q) :
    1 / 10 ≤ (adjust q w h).1 := by
  unfold adjust
  by_cases hc : 1 / 10 < q
  · rw [if_pos hc]
    exact le_max_left _ _
  · rw [if_neg hc]
    exact hq

theorem adjust_quality_le (q : ℚ) (w h : ℕ) (hq : 1 / 10 ≤ q) :
    (adjust q w h).1 ≤ q := by
  unfold adjust
  by_cases hc : 1 / 10 < q
  · rw [if_pos hc]
    exact max_le hc.le (by linarith)
  · rw [if_neg hc]

theorem clampDim_ge_one (x : ℚ) : 1 ≤ clampDim x := by
  unfold clampDim
  by_cases hc : jsRound x < 1
  · rw [if_pos hc]
  · rw [if_neg hc]
    push_neg at hc
    omega

theorem clampDim_shrink_le (w : ℕ) (hw : 1 ≤ w) :
    clampDim ((w : ℚ) * (9 / 10)) ≤ w := by
  unfold clampDim
  by_cases hc : jsRound ((w : ℚ) * (9 / 10)) < 1
  · rw [if_pos hc]
    exact hw
  · rw [if_neg hc]
    have hwq : (0 : ℚ) ≤ (w : ℚ) := by positivity
    have hlt : jsRound ((w : ℚ) * (9 / 10)) < (w : ℤ) + 1 := by
      unfold jsRound
      rw [Int.floor_lt]
      push_cast
      linarith
    have hle : jsRound ((w : ℚ) * (9 / 10)) ≤ (w : ℤ) := by omega
    omega

theorem adjust_width_ge (q : ℚ) (w h : ℕ) (hw : 1 ≤ w) :
    1 ≤ (adjust q w h).2.1 := by
  unfold adjust
  by_cases hc : 1 / 10 < q
  · rw [if_pos hc]
    exact hw
  · rw [if_neg hc]
    exact clampDim_ge_one _

theorem adjust_height_ge (q : ℚ) (w h : ℕ) (hh : 1 ≤ h) :
    1 ≤ (adjust q w h).2.2 := by
  unfold adjust
  by_cases hc : 1 / 10 < q
  · rw [if_pos hc]
    exact hh
  · rw [if_neg hc]
    exact clampDim_ge_one _

theorem adjust_width_le (q : ℚ) (w h : ℕ) (hw : 1 ≤ w) :
    (adjust q w h).2.1 ≤ w := by
  unfold adjust
  by_cases hc : 1 / 10 < q
  · rw [if_pos hc]
  · rw [if_neg hc]
    exact clampDim_shrink_le w hw

theorem adjust_height_le (q : ℚ) (w h : ℕ) (hh : 1 ≤ h) :
    (adjust q w h).2.2 ≤ h := by
  unfold adjust
  by_cases hc : 1 / 10 < q
  · rw [if_pos hc]
  · rw [if_neg hc]
    exact clampDim_shrink_le h hh

theorem iterStep_inv (enc : Enc) (maxKB : ℚ) (s : FsState) (hs : FsInv s)
    (hit : s.iters < 100) : FsInv (iterStep enc maxKB s) := by
  obtain ⟨hq, hw, hh, _⟩ := hs
  refine ⟨adjust_quality_ge _ _ _ hq, adjust_width_ge _ _ _ hw,
    adjust_height_ge _ _ _ hh, ?_⟩
  show s.iters + 1 ≤ 100
  omega

theorem iterStep_mono (enc : Enc) (maxKB : ℚ) (s : FsState) (hs : FsInv s) :
    (iterStep enc maxKB s).quality ≤ s.quality ∧
    (iterStep enc maxKB s).width ≤ s.width ∧
    (iterStep enc maxKB s).height ≤ s.height := by
  obtain ⟨hq, hw, hh, _⟩ := hs
  exact ⟨adjust_quality_le _ _ _ hq, adjust_width_le _ _ _ hw,
    adjust_height_le _ _ _ hh⟩

theorem searchLoop_inv (enc : Enc) (minKB maxKB : ℚ) :
    ∀ (fuel : ℕ) (s : FsState), FsInv s →
      FsInv (searchLoop enc minKB maxKB fuel s) := by
  intro fuel
  induction fuel with
  | zero => intro s hs; exact hs
  | succ fuel ih =>
    intro s hs
    rw [searchLoop]
    by_cases hg : maxKB < s.current.sizeKB ∧ s.iters < 100
    · rw [if_pos hg]
      have hstep := iterStep_inv enc maxKB s hs hg.2
      by_cases hb : minKB ≤ (iterStep enc maxKB s).current.sizeKB ∧
          (iterStep enc maxKB s).current.sizeKB ≤ maxKB
      · rw [if_pos hb]
        exact hstep
      · rw [if_neg hb]
        exact ih _ hstep
    · rw [if_neg hg]
      exact hs

theorem searchLoop_mono (enc : Enc) (minKB maxKB : ℚ) :
    ∀ (fuel : ℕ) (s : FsState), FsInv s →
      (searchLoop enc minKB maxKB fuel s).quality ≤ s.quality ∧
      (searchLoop enc minKB maxKB fuel s).width ≤ s.width ∧
      (searchLoop enc minKB maxKB fuel s).height ≤ s.height := by
  intro fuel
  induction fuel with
  | zero => intro s _; exact ⟨le_refl _, le_refl _, le_refl _⟩
  | succ fuel ih =>
    intro s hs
    rw [searchLoop]
    by_cases hg : maxKB < s.current.sizeKB ∧ s.iters < 100
    · rw [if_pos hg]
      have hstep := iterStep_inv enc maxKB s hs hg.2
      have hm := iterStep_mono enc maxKB s hs
      by_cases hb : minKB ≤ (iterStep enc maxKB s).current.sizeKB ∧
          (iterStep enc maxKB s).current.sizeKB ≤ maxKB
      · rw [if_pos hb]
        exact hm
      · rw [if_neg hb]
        obtain ⟨m1, m2, m3⟩ := ih _ hstep
        exact ⟨le_trans m1 hm.1, le_trans m2 hm.2.1, le_trans m3 hm.2.2⟩
    · rw [if_neg hg]
      exact ⟨le_refl _, le_refl _, le_refl _⟩

theorem fsInitState_inv (enc : Enc) (W H : ℕ) (hW : 1 ≤ W) (hH : 1 ≤ H) :
    FsInv (fsInitState enc W H) := by
  refine ⟨by norm_num [fsInitState], hW, hH, by norm_num [fsInitState]⟩

end FsLemmas

/-- C3: for every image and collaborator, whenever the initial render at
quality 0.9 and intrinsic dimensions measures inside `[minKB, maxKB]`,
the file-size resizer performs exactly one render (the call log is the
single initial call, so no loop iteration ran) and returns that render
with status `Satisfied` and no advisory. -/
theorem fs_initial_satisfied (enc : Enc) (minKB maxKB : ℚ) (W H : ℕ)
    (hmin : 0 < minKB) (hle : minKB ≤ maxKB)
    (h1 : minKB ≤ (fsInit enc W H).sizeKB)
    (h2 : (fsInit enc W H).sizeKB ≤ maxKB) :
    fileSizeResize enc minKB maxKB W H =
      ⟨fsInit enc W H, Status.Satisfied, none, [initSpec W H]⟩ := by
  unfold fileSizeResize
  rw [if_pos ⟨h1, h2⟩]

/-- C3 witness: a collaborator rendering 40 KB with envelope `[20, 60]`
(the spec scenario) satisfies the hypotheses and returns after one
render. -/
theorem fs_initial_satisfied_witness :
    ((0 : ℚ) < 20 ∧ (20 : ℚ) ≤ 60 ∧ (20 : ℚ) ≤ (fsInit encConst40 8 6).sizeKB ∧
      (fsInit encConst40 8 6).sizeKB ≤ 60) ∧
    fileSizeResize encConst40 20 60 8 6 =
      ⟨fsInit encConst40 8 6, Status.Satisfied, none, [initSpec 8 6]⟩ :=
  ⟨⟨by with_unfolding_all decide, by with_unfolding_all decide,
    by with_unfolding_all decide, by with_unfolding_all decide⟩,
   fs_initial_satisfied encConst40 20 60 8 6 (by with_unfolding_all decide)
    (by with_unfolding_all decide) (by with_unfolding_all decide)
    (by with_unfolding_all decide)⟩

/-- C4: for every image and collaborator, whenever the initial render
measures strictly below `minKB`, the file-size resizer returns that exact
initial render (same data URL and size) with status `AcceptedBelowMin`
and the keeping-original advisory, and the call log is the single initial
call — it never re-renders to inflate the file size. -/
theorem fs_below_min_keeps_original (enc : Enc) (minKB maxKB : ℚ) (W H : ℕ)
    (hmin : 0 < minKB) (hle : minKB ≤ maxKB)
    (h : (fsInit enc W H).sizeKB < minKB) :
    fileSizeResize enc minKB maxKB W H =
      ⟨fsInit enc W H, Status.AcceptedBelowMin, some Advisory.keepingOriginal,
        [initSpec W H]⟩ := by
  unfold fileSizeResize
  rw [if_neg (fun hc => absurd h (not_lt.mpr hc.1)), if_pos h]

/-- C4 witness: a collaborator rendering 10 KB with envelope `[20, 60]`
satisfies the hypotheses and the initial render is returned untouched. -/
theorem fs_below_min_keeps_original_witness :
    ((0 : ℚ) < 20 ∧ (20 : ℚ) ≤ 60 ∧ (fsInit encConst10 8 6).sizeKB < 20) ∧
    fileSizeResize encConst10 20 60 8 6 =
      ⟨fsInit encConst10 8 6, Status.AcceptedBelowMin,
        some Advisory.keepingOriginal, [initSpec 8 6]⟩ :=
  ⟨⟨by with_unfolding_all decide, by with_unfolding_all decide,
    by with_unfolding_all decide⟩,
   fs_below_min_keeps_original encConst10 20 60 8 6
    (by with_unfolding_all decide) (by with_unfolding_all decide)
    (by with_unfolding_all decide)⟩

/-- C5: throughout the file-size search, the invariant holds: it holds at
the initial state (for an image with positive dimensions), it is
preserved by each loop iteration taken under the 100-iteration guard,
and hence it holds at every state the loop can reach and at the final
state — the iteration count never exceeds 100, quality never drops below
0.1, and width and height never drop below 1. -/
theorem fs_search_invariants (enc : Enc) (minKB maxKB : ℚ) (fuel W H : ℕ)
    (s : FsState) (hW : 1 ≤ W) (hH : 1 ≤ H) (hs : FsInv s) :
    FsInv (fsInitState enc W H) ∧
    (s.iters < 100 → FsInv (iterStep enc maxKB s)) ∧
    FsInv (searchLoop enc minKB maxKB fuel s) ∧
    FsInv (fsLoopFinal enc minKB maxKB W H) :=
  ⟨fsInitState_inv enc W H hW hH,
   fun hit => iterStep_inv enc maxKB s hs hit,
   searchLoop_inv enc minKB maxKB fuel s hs,
   searchLoop_inv enc minKB maxKB 100 _ (fsInitState_inv enc W H hW hH)⟩

/-- C5 witness: the invariant claims hold for the 500 KB collaborator on
a 1×1 image with envelope `[20, 60]`, starting from the initial state. -/
theorem fs_search_invariants_witness :
    (1 ≤ 1 ∧ 1 ≤ 1 ∧ FsInv (fsInitState encConst500 1 1)) ∧
    (FsInv (fsInitState encConst500 1 1) ∧
     ((fsInitState encConst500 1 1).iters < 100 →
        FsInv (iterStep encConst500 60 (fsInitState encConst500 1 1))) ∧
     FsInv (searchLoop encConst500 20 60 100 (fsInitState encConst500 1 1)) ∧
     FsInv (fsLoopFinal encConst500 20 60 1 1)) :=
  ⟨⟨by decide, by decide, by with_unfolding_all decide⟩,
   fs_search_invariants encConst500 20 60 100 1 1 (fsInitState encConst500 1 1)
    (by decide) (by decide) (by with_unfolding_all decide)⟩

/-- C6: each iteration runs exactly one adjustment phase.  While quality
is above 0.1 the adjustment reduces quality to
`max 0.1 (quality - 0.05)`, a strict decrease, and leaves both
dimensions unchanged; once quality equals 0.1 the adjustment leaves
quality unchanged and shrinks each dimension to the rounded 0.9 multiple
floored at 1, never increasing it.  Across the whole search, quality,
width and height never increase. -/
theorem fs_phase_discipline (q : ℚ) (w h : ℕ) (enc : Enc) (minKB maxKB : ℚ)
    (fuel : ℕ) (s : FsState) (hq : 1 / 10 ≤ q) (hw : 1 ≤ w) (hh : 1 ≤ h)
    (hs : FsInv s) :
    (1 / 10 < q →
      adjust q w h = (max (1 / 10) (q - 1 / 20), w, h) ∧ (adjust q w h).1 < q) ∧
    (q = 1 / 10 →
      (adjust q w h).1 = q ∧
      (adjust q w h).2.1 = clampDim ((w : ℚ) * (9 / 10)) ∧
      (adjust q w h).2.2 = clampDim ((h : ℚ) * (9 / 10)) ∧
      (adjust q w h).2.1 ≤ w ∧ (adjust q w h).2.2 ≤ h) ∧
    ((searchLoop enc minKB maxKB fuel s).quality ≤ s.quality ∧
     (searchLoop enc minKB maxKB fuel s).width ≤ s.width ∧
     (searchLoop enc minKB maxKB fuel s).height ≤ s.height) := by
  refine ⟨?_, ?_, searchLoop_mono enc minKB maxKB fuel s hs⟩
  · intro hgt
    constructor
    · unfold adjust
      rw [if_pos hgt]
    · unfold adjust
      rw [if_pos hgt]
      show max (1 / 10) (q - 1 / 20) < q
      exact max_lt hgt (by linarith)
  · intro heq
    have hng : ¬(1 / 10 < q) := by rw [heq]; exact lt_irrefl _
    refine ⟨?_, ?_, ?_, adjust_width_le q w h hw, adjust_height_le q w h hh⟩
    · unfold adjust
      rw [if_neg hng]
    · unfold adjust
      rw [if_neg hng]
    · unfold adjust
      rw [if_neg hng]

/-- C6 witness: the phase facts at quality 1/2 with a 10×10 canvas, and
loop monotonicity for the 500 KB collaborator from the initial state of
a 10×10 image. -/
theorem fs_phase_discipline_witness :
    ((1 : ℚ) / 10 ≤ 1 / 2 ∧ 1 ≤ 10 ∧ 1 ≤ 10 ∧
      FsInv (fsInitState encConst500 10 10)) ∧
    ((1 / 10 < (1 : ℚ) / 2 →
      adjust (1 / 2) 10 10 = (max (1 / 10) (1 / 2 - 1 / 20), 10, 10) ∧
        (adjust (1 / 2) 10 10).1 < 1 / 2) ∧
     ((1 : ℚ) / 2 = 1 / 10 →
      (adjust (1 / 2) 10 10).1 = 1 / 2 ∧
      (adjust (1 / 2) 10 10).2.1 = clampDim ((10 : ℚ) * (9 / 10)) ∧
      (adjust (1 / 2) 10 10).2.2 = clampDim ((10 : ℚ) * (9 / 10)) ∧
      (adjust (1 / 2) 10 10).2.1 ≤ 10 ∧ (adjust (1 / 2) 10 10).2.2 ≤ 10) ∧
     ((searchLoop encConst500 20 60 100 (fsInitState encConst500 10 10)).quality ≤
        (fsInitState encConst500 10 10).quality ∧
      (searchLoop encConst500 20 60 100 (fsInitState encConst500 10 10)).width ≤
        (fsInitState encConst500 10 10).width ∧
      (searchLoop encConst500 20 60 100 (fsInitState encConst500 10 10)).height ≤
        (fsInitState encConst500 10 10).height)) :=
  ⟨⟨by with_unfolding_all decide, by decide, by decide,
    by with_unfolding_all decide⟩,
   fs_phase_discipline (1 / 2) 10 10 encConst500 20 60 100
    (fsInitState encConst500 10 10) (by with_unfolding_all decide)
    (by decide) (by decide) (by with_unfolding_all decide)⟩

/-- C2 counterexample: with the collaborator `encC2` (renders measure
100 KB until the canvas width reaches 15 pixels, then 1 KB), envelope
`[2, 3]` and a 100000×1 image, the search runs its full budget of 100
iterations, only the 100th render is at most the maximum (1 KB, still
below the minimum 2 KB), and the returned outcome carries that candidate
with status `BestEffort` but with NO advisory message — refuting the
claim that an advisory is produced in both termination cases. -/
theorem fs_exhausted_no_advisory :
    (fsLoopFinal encC2 2 3 100000 1).iters = 100 ∧
    (fsLoopFinal encC2 2 3 100000 1).lastValidSizeKB < 2 ∧
    (fsLoopFinal encC2 2 3 100000 1).lastValidDataUrl ≠ "" ∧
    (fileSizeResize encC2 2 3 100000 1).status = Status.BestEffort ∧
    (fileSizeResize encC2 2 3 100000 1).advisory = none := by
  with_unfolding_all decide

/-- C2 (amended): when the search loop ends with its budget exhausted and
no render ever landed inside `[minKB, maxKB]`, the outcome never raises
an exception (the model is a total function): if a render with size at
most `maxKB` was recorded, the most recently recorded candidate is
returned with status `BestEffort` and NO advisory message; only when no
such candidate exists is the last (still over-maximum) render returned
with status `BestEffort` together with the advisory message. -/
theorem fs_exhausted_best_effort (enc : Enc) (minKB maxKB : ℚ) (W H : ℕ)
    (hmin : 0 < minKB) (hle : minKB ≤ maxKB)
    (hstart : maxKB < (fsInit enc W H).sizeKB)
    (hexh : (fsLoopFinal enc minKB maxKB W H).iters = 100)
    (hnoenv : (fsLoopFinal enc minKB maxKB W H).lastValidSizeKB < minKB) :
    ((fsLoopFinal enc minKB maxKB W H).lastValidDataUrl ≠ "" →
      fileSizeResize enc minKB maxKB W H =
        ⟨⟨(fsLoopFinal enc minKB maxKB W H).lastValidDataUrl,
            (fsLoopFinal enc minKB maxKB W H).lastValidSizeKB⟩,
          Status.BestEffort, none, (fsLoopFinal enc minKB maxKB W H).calls⟩) ∧
    ((fsLoopFinal enc minKB maxKB W H).lastValidDataUrl = "" →
      fileSizeResize enc minKB maxKB W H =
        ⟨(fsLoopFinal enc minKB maxKB W H).current, Status.BestEffort,
          some Advisory.couldNotPerfectlyResize,
          (fsLoopFinal enc minKB maxKB W H).calls⟩) := by
  have hc1 : ¬(minKB ≤ (fsInit enc W H).sizeKB ∧ (fsInit enc W H).sizeKB ≤ maxKB) :=
    fun hc => absurd hstart (not_lt.mpr hc.2)
  have hc2 : ¬((fsInit enc W H).sizeKB < minKB) :=
    not_lt.mpr (le_trans hle hstart.le)
  constructor
  · intro hcand
    unfold fileSizeResize
    rw [if_neg hc1, if_neg hc2, if_pos hcand, if_neg (not_le.mpr hnoenv)]
  · intro hempty
    unfold fileSizeResize
    rw [if_neg hc1, if_neg hc2, if_neg (fun hcontra => hcontra hempty)]

/-- C2 witness: the `encC2` scenario instantiates the amended theorem's
hypotheses and conclusions. -/
theorem fs_exhausted_best_effort_witness :
    ((0 : ℚ) < 2 ∧ (2 : ℚ) ≤ 3 ∧ (3 : ℚ) < (fsInit encC2 100000 1).sizeKB ∧
      (fsLoopFinal encC2 2 3 100000 1).iters = 100 ∧
      (fsLoopFinal encC2 2 3 100000 1).lastValidSizeKB < 2) ∧
    (((fsLoopFinal encC2 2 3 100000 1).lastValidDataUrl ≠ "" →
      fileSizeResize encC2 2 3 100000 1 =
        ⟨⟨(fsLoopFinal encC2 2 3 100000 1).lastValidDataUrl,
            (fsLoopFinal encC2 2 3 100000 1).lastValidSizeKB⟩,
          Status.BestEffort, none, (fsLoopFinal encC2 2 3 100000 1).calls⟩) ∧
     ((fsLoopFinal encC2 2 3 100000 1).lastValidDataUrl = "" →
      fileSizeResize encC2 2 3 100000 1 =
        ⟨(fsLoopFinal encC2 2 3 100000 1).current, Status.BestEffort,
          some Advisory.couldNotPerfectlyResize,
          (fsLoopFinal encC2 2 3 100000 1).calls⟩)) :=
  ⟨⟨by with_unfolding_all decide, by with_unfolding_all decide,
    by with_unfolding_all decide, by with_unfolding_all decide,
    by with_unfolding_all decide⟩,
   fs_exhausted_best_effort encC2 2 3 100000 1 (by with_unfolding_all decide)
    (by with_unfolding_all decide) (by with_unfolding_all decide)
    (by with_unfolding_all decide) (by with_unfolding_all decide)⟩

theorem searchLoop_calls_jpeg (enc : Enc) (minKB maxKB : ℚ) :
    ∀ (fuel : ℕ) (s : FsState),
      (∀ c ∈ s.calls, c.format = "image/jpeg") →
      ∀ c ∈ (searchLoop enc minKB maxKB fuel s).calls, c.format = "image/jpeg" := by
  intro fuel
  induction fuel with
  | zero => intro s hs; exact hs
  | succ fuel ih =>
    intro s hs
    have hstep : ∀ c ∈ (iterStep enc maxKB s).calls, c.format = "image/jpeg" := by
      intro c hc
      rcases List.mem_append.mp hc with hmem | hmem
      · exact hs c hmem
      · rcases List.mem_singleton.mp hmem with rfl
        rfl
    rw [searchLoop]
    by_cases hg : maxKB < s.current.sizeKB ∧ s.iters < 100
    · rw [if_pos hg]
      by_cases hb : minKB ≤ (iterStep enc maxKB s).current.sizeKB ∧
          (iterStep enc maxKB s).current.sizeKB ≤ maxKB
      · rw [if_pos hb]
        exact hstep
      · rw [if_neg hb]
        exact ih _ hstep
    · rw [if_neg hg]
      exact hs

/-- C9: the output encoding format depends only on the resize mode and
never on the input: the dimension path performs a single render call in
the lossless PNG format with no quality argument, and every call the
file-size path makes — the initial render and every iteration re-render,
for any collaborator, envelope and image — uses the lossy JPEG format. -/
theorem render_formats_by_mode (enc : Enc) (minKB maxKB : ℚ)
    (W H W2 H2 minS maxS : ℕ) :
    ((dimModeCall W2 H2 minS maxS).format = "image/png" ∧
      (dimModeCall W2 H2 minS maxS).quality = none) ∧
    ∀ c ∈ (fileSizeResize enc minKB maxKB W H).calls,
      c.format = "image/jpeg" := by
  refine ⟨⟨rfl, rfl⟩, ?_⟩
  have hinit : ∀ c ∈ [initSpec W H], c.format = "image/jpeg" := by
    intro c hc
    rcases List.mem_singleton.mp hc with rfl
    rfl
  have hloop : ∀ c ∈ (fsLoopFinal enc minKB maxKB W H).calls,
      c.format = "image/jpeg" :=
    searchLoop_calls_jpeg enc minKB maxKB 100 (fsInitState enc W H) hinit
  unfold fileSizeResize
  by_cases h1 : minKB ≤ (fsInit enc W H).sizeKB ∧ (fsInit enc W H).sizeKB ≤ maxKB
  · rw [if_pos h1]
    exact hinit
  · rw [if_neg h1]
    by_cases h2 : (fsInit enc W H).sizeKB < minKB
    · rw [if_pos h2]
      exact hinit
    · rw [if_neg h2]
      by_cases h3 : (fsLoopFinal enc minKB maxKB W H).lastValidDataUrl ≠ ""
      · rw [if_pos h3]
        exact hloop
      · rw [if_neg h3]
        exact hloop

section NameLemmas

theorem jsSplitDot_ne_nil : ∀ l : List Char, jsSplitDot l ≠ [] := by
  intro l
  cases l with
  | nil => simp [jsSplitDot]
  | cons c rest =>
    simp only [jsSplitDot]
    rcases hr : jsSplitDot rest with _ | ⟨p, ps⟩
    · simp
    · by_cases hc : c = '.' <;> simp [hc]

theorem jsSplitDot_dot_partition : ∀ l : List Char,
    ('.' ∉ l ∧ (jsSplitDot l).length = 1) ∨
    ('.' ∈ l ∧ 2 ≤ (jsSplitDot l).length) := by
  intro l
  induction l with
  | nil => exact Or.inl ⟨by simp, rfl⟩
  | cons c rest ih =>
    by_cases hc : c = '.'
    · subst hc
      refine Or.inr ⟨List.mem_cons_self _ _, ?_⟩
      simp only [jsSplitDot]
      rcases hr : jsSplitDot rest with _ | ⟨p, ps⟩
      · exact absurd hr (jsSplitDot_ne_nil rest)
      · simp
    · have hlen : (jsSplitDot (c :: rest)).length = (jsSplitDot rest).length := by
        simp only [jsSplitDot]
        rcases hr : jsSplitDot rest with _ | ⟨p, ps⟩
        · exact absurd hr (jsSplitDot_ne_nil rest)
        · simp [hc]
      rcases ih with ⟨h1, h2⟩ | ⟨h1, h2⟩
      · refine Or.inl ⟨?_, by rw [hlen]; exact h2⟩
        intro hm
        rcases List.mem_cons.mp hm with h | h
        · exact hc h.symm
        · exact h1 h
      · exact Or.inr ⟨List.mem_cons_of_mem _ h1, by rw [hlen]; exact h2⟩

theorem dropWhile_append_left (p : Char → Bool) :
    ∀ (l1 l2 : List Char), l1.dropWhile p ≠ [] →
      (l1 ++ l2).dropWhile p = l1.dropWhile p ++ l2 := by
  intro l1
  induction l1 with
  | nil => intro l2 hne; exact absurd rfl hne
  | cons a l1 ih =>
    intro l2 hne
    by_cases hp : p a
    · rw [List.cons_append]
      rw [List.dropWhile_cons] at hne ⊢
      rw [if_pos hp] at hne
      rw [if_pos hp]
      rw [List.dropWhile_cons, if_pos hp]
      exact ih l2 hne
    · rw [List.cons_append, List.dropWhile_cons, List.dropWhile_cons]
      rw [if_neg hp, if_neg hp, List.cons_append]

theorem dropWhile_append_right (p : Char → Bool) :
    ∀ (l1 l2 : List Char), (∀ x ∈ l1, p x) →
      (l1 ++ l2).dropWhile p = l2.dropWhile p := by
  intro l1
  induction l1 with
  | nil => intro l2 _; rfl
  | cons a l1 ih =>
    intro l2 hall
    rw [List.cons_append, List.dropWhile_cons, if_pos (hall a (List.mem_cons_self _ _))]
    exact ih l2 (fun x hx => hall x (List.mem_cons_of_mem _ hx))

theorem strip_of_not_mem (l : List Char) (hd : '.' ∉ l) :
    stripFromLastDot l = [] := by
  unfold stripFromLastDot
  have hnil : l.reverse.dropWhile (fun c => c ≠ '.') = [] := by
    rw [List.dropWhile_eq_nil_iff]
    intro x hx
    simp only [ne_eq, decide_eq_true_eq]
    intro hxe
    subst hxe
    exact hd (List.mem_reverse.mp hx)
  rw [hnil]
  rfl

theorem strip_cons_of_mem (c : Char) (rest : List Char) (hd : '.' ∈ rest) :
    stripFromLastDot (c :: rest) = c :: stripFromLastDot rest := by
  unfold stripFromLastDot
  rw [List.reverse_cons]
  have hne : rest.reverse.dropWhile (fun c => c ≠ '.') ≠ [] := by
    rw [Ne, List.dropWhile_eq_nil_iff]
    intro hall
    have hdot := hall '.' (List.mem_reverse.mpr hd)
    simp at hdot
  rw [dropWhile_append_left _ _ _ hne]
  obtain ⟨d, D, hD⟩ := List.exists_cons_of_ne_nil hne
  rw [hD]
  simp [List.reverse_append]

theorem strip_dot_cons_of_not_mem (rest : List Char) (hd : '.' ∉ rest) :
    stripFromLastDot ('.' :: rest) = [] := by
  unfold stripFromLastDot
  rw [List.reverse_cons, dropWhile_append_right]
  · rfl
  · intro x hx
    simp only [ne_eq, decide_eq_true_eq]
    intro hxe
    subst hxe
    exact hd (List.mem_reverse.mp hx)

theorem joinDot_cons_char (c : Char) (p : List Char) (X : List (List Char)) :
    joinDot ((c :: p) :: X) = c :: joinDot (p :: X) := by
  cases X with
  | nil => rfl
  | cons q X => rfl

/-- The code's split/slice/join pipeline agrees with removing everything
from the last dot onward (and yields the empty base when no dot occurs). -/
theorem fsBaseName_eq_strip : ∀ l : List Char, fsBaseName l = stripFromLastDot l := by
  intro l
  induction l with
  | nil => rfl
  | cons c rest ih =>
    rcases hr : jsSplitDot rest with _ | ⟨p, ps⟩
    · exact absurd hr (jsSplitDot_ne_nil rest)
    rcases ps with _ | ⟨q, ps2⟩
    · have hnotmem : '.' ∉ rest := by
        rcases jsSplitDot_dot_partition rest with ⟨h1, _⟩ | ⟨_, h2⟩
        · exact h1
        · rw [hr] at h2
          simp at h2
      by_cases hc : c = '.'
      · subst hc
        rw [strip_dot_cons_of_not_mem rest hnotmem]
        unfold fsBaseName
        simp only [jsSplitDot, hr]
        rw [if_pos True.intro]
        rfl
      · rw [strip_of_not_mem (c :: rest) ?notmem]
        case notmem =>
          intro hm
          rcases List.mem_cons.mp hm with h | h
          · exact hc h.symm
          · exact hnotmem h
        unfold fsBaseName
        simp only [jsSplitDot, hr]
        rw [if_neg hc]
        rfl
    · have hmem : '.' ∈ rest := by
        rcases jsSplitDot_dot_partition rest with ⟨_, h2⟩ | ⟨h1, _⟩
        · rw [hr] at h2
          simp at h2
        · exact h1
      rw [strip_cons_of_mem c rest hmem, ← ih]
      unfold fsBaseName
      simp only [jsSplitDot, hr]
      by_cases hc : c = '.'
      · subst hc
        rw [if_pos rfl]
        rfl
      · rw [if_neg hc]
        exact joinDot_cons_char c p (List.dropLast (q :: ps2))

end NameLemmas

/-- C10: for every input filename, the file-size output name is the
string `resized_filesize_` followed by the name with everything from its
last dot onward removed, followed by `.jpeg`; in particular a dotless
name has the empty base, so the output is exactly
`resized_filesize_.jpeg` and the original name is lost. -/
theorem fs_output_name_strips_last_dot :
    (∀ name : String, fsOutputName name =
      String.mk ("resized_filesize_".toList ++ stripFromLastDot name.toList ++
        ".jpeg".toList)) ∧
    fsOutputName "photo" = "resized_filesize_.jpeg" := by
  constructor
  · intro name
    unfold fsOutputName
    rw [fsBaseName_eq_strip]
  · with_unfolding_all decide
